import Mathlib

/-!
# Verification of the Gambl language core (lexer, parser, evaluator)

A shallow embedding of the Gambl interpreter:

* `lexer.py`   — regex-table tokenizer (`SPEC`, `lex`);
* `Parser.py`  — recursive-descent parser (`Parser.parse_*`, `parse`);
* `ast_nodes.py` — AST node variants;
* `environment.py` / `Interpreter.py` — flat environments, `Reference`
  handles, and the tree-walking `evaluate`.

Python's unbounded recursion and `while` loops are modelled with an explicit
fuel parameter; every function is otherwise a direct transcription of the
source.  Machine integers are `Int` (Python ints are unbounded).  Errors
raised by the Python code are modelled as `Except` error results.
-/

set_option maxHeartbeats 1000000

/-- A lexer token, the `(kind, text)` tuple yielded by `lex` in `lexer.py`. -/
structure Token where
  kind : String
  text : String
deriving DecidableEq, Repr

/-- Decidable equality on `Except`, used to evaluate concrete runs. -/
instance {ε α : Type} [DecidableEq ε] [DecidableEq α] : DecidableEq (Except ε α) := fun
  | .ok a, .ok b =>
      if h : a = b then .isTrue (by rw [h]) else .isFalse (fun k => h (by injection k))
  | .ok _, .error _ => .isFalse (fun k => Except.noConfusion k)
  | .error _, .ok _ => .isFalse (fun k => Except.noConfusion k)
  | .error a, .error b =>
      if h : a = b then .isTrue (by rw [h]) else .isFalse (fun k => h (by injection k))

/-! ## Lexer (`src/lexer.py`)

The Python lexer runs `re.finditer` with the master pattern
`"|".join(SPEC)`.  At each scan position the first alternative of the
ordered `SPEC` table that matches wins (Python alternation is ordered, and
each alternative is itself greedy).  Whitespace and comments are skipped,
the catch-all `MISMATCH` pattern `.` raises
`ValueError(f"Unexpected character: {text!r} at index {m.start()}")`,
and every other match is yielded as a token.

Each regex of `SPEC` is transcribed as a prefix matcher
`List Char → Option (List Char)` returning the matched lexeme.
Python's `\w` is Unicode-aware; identifiers here are modelled over the
ASCII range `[A-Za-z0-9_]`, which is exact for every ASCII source text. -/

/-- `\w` character class (ASCII): letters, digits and underscore. -/
def isWordChar (c : Char) : Bool :=
  c.isAlpha || c.isDigit || c = '_'

/-- `NUM`: `\d+(\.\d+)?` — greedy digits with an optional fraction. -/
def matchNum (cs : List Char) : Option (List Char) :=
  let ds := cs.takeWhile Char.isDigit
  if ds.isEmpty then none
  else
    match cs.drop ds.length with
    | '.' :: rest2 =>
      let ds2 := rest2.takeWhile Char.isDigit
      if ds2.isEmpty then some ds else some (ds ++ '.' :: ds2)
    | _ => some ds

/-- Tail of `STRING` after the opening quote: `([^"\\]|\\.)*"`.
Regex `.` does not match a newline, so a backslash-newline pair aborts
the string match, as does an unterminated string. -/
def matchStringTail : List Char → Option (List Char)
  | [] => none
  | '"' :: _ => some ['"']
  | '\\' :: c :: rest =>
      if c = '\n' then none
      else (matchStringTail rest).map (fun t => '\\' :: c :: t)
  | '\\' :: [] => none
  | c :: rest =>
      if c = '"' ∨ c = '\\' then none  -- unreachable: handled above
      else (matchStringTail rest).map (fun t => c :: t)

/-- `STRING`: `"([^"\\]|\\.)*"`. -/
def matchString (cs : List Char) : Option (List Char) :=
  match cs with
  | '"' :: rest => (matchStringTail rest).map (fun t => '"' :: t)
  | _ => none

/-- A fixed literal, e.g. `==` or `(`. -/
def matchLit (lit : String) (cs : List Char) : Option (List Char) :=
  if lit.toList ≠ [] ∧ cs.take lit.toList.length = lit.toList then some lit.toList else none

/-- A keyword with a trailing word boundary, e.g. `and\b`. -/
def matchWord (w : String) (cs : List Char) : Option (List Char) :=
  if cs.take w.toList.length = w.toList then
    match cs.drop w.toList.length with
    | [] => some w.toList
    | c :: _ => if isWordChar c then none else some w.toList
  else none

/-- `ID`: `[A-Za-z_]\w*`. -/
def matchId (cs : List Char) : Option (List Char) :=
  match cs with
  | c :: rest =>
      if c.isAlpha ∨ c = '_' then some (c :: rest.takeWhile isWordChar) else none
  | [] => none

/-- `WS`: `[ \t\r\n]+`. -/
def isSpaceChar (c : Char) : Bool :=
  c = ' ' || c = '\t' || c = '\r' || c = '\n'

def matchWS (cs : List Char) : Option (List Char) :=
  let ws := cs.takeWhile isSpaceChar
  if ws.isEmpty then none else some ws

/-- `COMMENT`: `#.*` — up to, not including, the end of the line. -/
def matchComment (cs : List Char) : Option (List Char) :=
  match cs with
  | '#' :: rest => some ('#' :: rest.takeWhile (fun c => c ≠ '\n'))
  | _ => none

/-- `MISMATCH`: `.` — any single character other than a newline. -/
def matchMismatch (cs : List Char) : Option (List Char) :=
  match cs with
  | c :: _ => if c = '\n' then none else some [c]
  | [] => none

/-- The `SPEC` table of `lexer.py` without its final `MISMATCH` entry:
every pattern that yields a token, plus the skipped `WS` and `COMMENT`. -/
def SPECR : List (String × (List Char → Option (List Char))) :=
  [("NUM", matchNum), ("STRING", matchString), ("EQ", matchLit "=="),
   ("LE", matchLit "<="), ("GE", matchLit ">="), ("LT", matchLit "<"),
   ("GT", matchLit ">"), ("AND", matchWord "and"), ("OR", matchWord "or"),
   ("NOT", matchWord "not"), ("REF", matchWord "ref"), ("IF", matchWord "if"),
   ("THEN", matchWord "then"), ("ELSE", matchWord "else"),
   ("WHILE", matchWord "while"), ("DEF", matchWord "def"),
   ("RETURN", matchWord "return"), ("ID", matchId), ("ASSIGN", matchLit "="),
   ("PLUS", matchLit "+"), ("MINUS", matchLit "-"), ("MUL", matchLit "*"),
   ("DIV", matchLit "/"), ("MOD", matchLit "%"), ("POW", matchLit "^"),
   ("LBRACK", matchLit "["), ("RBRACK", matchLit "]"), ("LPAREN", matchLit "("),
   ("RPAREN", matchLit ")"), ("COMMA", matchLit ","), ("COLON", matchLit ":"),
   ("SEMICOLON", matchLit ";"), ("WS", matchWS), ("COMMENT", matchComment)]

/-- The full ordered `SPEC` table, `MISMATCH` last. -/
def SPEC : List (String × (List Char → Option (List Char))) :=
  SPECR ++ [("MISMATCH", matchMismatch)]

/-- First pattern of an ordered table matching at the current position —
Python's ordered regex alternation. -/
def firstMatch : List (String × (List Char → Option (List Char))) → List Char →
    Option (String × List Char)
  | [], _ => none
  | (k, m) :: ps, cs =>
    match m cs with
    | some t => some (k, t)
    | none => firstMatch ps cs

/-- Pipeline errors.  Each constructor corresponds to one `raise` site in
the Python source (plus `outOfFuel`/`nonIntegerResult`, artifacts of the
fuel-based embedding noted at their use sites). -/
inductive Error where
  | lexError (ch : Char) (index : Nat)         -- lexer `ValueError`
  | expectedKind (kind : String) (got : Token) -- `eat_kind` SyntaxError
  | expectedVal (val : String) (got : Token)   -- `eat_val` SyntaxError
  | unexpectedToken (got : Token)              -- `parse_factor` SyntaxError
  | invalidAssignTarget                        -- `parse_assignment` SyntaxError
  | intConversion (text : String)              -- `int()` ValueError in `Number`
  | undefinedVariable (name : String)          -- `Env.get` NameError
  | unknownOperator (op : String)              -- `evaluate` BinOp RuntimeError
  | unknownUnaryOperator (op : String)         -- `evaluate` UnaryOp RuntimeError
  | unknownNode (kind : String)                -- `evaluate` catch-all RuntimeError
  | typeError                                  -- host TypeError (e.g. `None + 1`)
  | zeroDivision                               -- host ZeroDivisionError
  | nonIntegerResult                           -- `**` with negative exponent (host float)
  | outOfFuel                                  -- fuel artifact, never a Python outcome
deriving DecidableEq, Repr

/-- The scan loop of `lex`: at each position take the first `SPEC` match,
skip `WS`/`COMMENT`, fail on `MISMATCH` with the offending character and
its offset, and otherwise yield the token.  `re.finditer` would silently
skip a character no alternative matches (unreachable, since `WS` or
`MISMATCH` accepts every character); the `none` branch mirrors that.
The fuel exceeds the scan length whenever `fuel > cs.length`. -/
def lexAux : Nat → List Char → Nat → Except Error (List Token)
  | 0, _, _ => .error .outOfFuel
  | _, [], _ => .ok []
  | fuel + 1, cs@(c :: rest), pos =>
    match firstMatch SPEC cs with
    | none => lexAux fuel rest (pos + 1)
    | some (k, t) =>
      if k = "WS" ∨ k = "COMMENT" then
        lexAux fuel (cs.drop t.length) (pos + t.length)
      else if k = "MISMATCH" then
        .error (.lexError c pos)
      else
        (lexAux fuel (cs.drop t.length) (pos + t.length)).map
          (fun toks => ⟨k, ⟨t⟩⟩ :: toks)

/-- `lex(src)` from `lexer.py`, collected into a list as `tokenize` does. -/
def lex (src : String) : Except Error (List Token) :=
  lexAux (src.toList.length + 1) src.toList 0

/-! ## AST nodes (`src/ast_nodes.py`)

One constructor per node class, with the class's fields.  `Number.__init__`
applies `int(...)` to the matched text; that conversion is performed by the
parser embedding (`strToIntLit`), so `Number` holds the converted integer,
exactly as in the Python object. -/

inductive Node where
  | Number (value : Int)
  | String (value : String)
  | Variable (name : String)
  | BinOp (left : Node) (op : String) (right : Node)
  | UnaryOp (op : String) (operand : Node)
  | Assignment (name : String) (value : Node)
  | If (condition : Node) (then_branch : Option Node) (else_branch : Option Node)
  | While (condition : Node) (body : Node)
  | FunctionDef (name : String) (params : List (Bool × String))
      (statements : List Node)
  | Call (name : String) (args : List Node)
  | ReturnValue (value : Node)
  | Block (statements : List Node)
  | ArrayLiteral (items : List Node)
  | Index (base : Node) (index : Node)
  | AssignIndex (base : Node) (index : Node) (expr : Node)
deriving Repr

/-- The Python class name of a node, as printed by the evaluator's
`Unknown AST node: {type(node)}` error. -/
def nodeKindName : Node → String
  | .Number _ => "Number"
  | .String _ => "String"
  | .Variable _ => "Variable"
  | .BinOp _ _ _ => "BinOp"
  | .UnaryOp _ _ => "UnaryOp"
  | .Assignment _ _ => "Assignment"
  | .If _ _ _ => "If"
  | .While _ _ => "While"
  | .FunctionDef _ _ _ => "FunctionDef"
  | .Call _ _ => "Call"
  | .ReturnValue _ => "ReturnValue"
  | .Block _ => "Block"
  | .ArrayLiteral _ => "ArrayLiteral"
  | .Index _ _ => "Index"
  | .AssignIndex _ _ _ => "AssignIndex"

/-! ## Parser (`src/Parser.py`)

The `Parser` object's state is its token list and cursor `i`; each
`parse_*` method becomes a function from a `PState` to an AST node and an
updated state.  Python's `while` loops over operators become auxiliary
`*_loop` functions; every recursive call consumes one unit of fuel
(`Error.outOfFuel` never occurs for any input the fuel covers).
The unused `parse_call`, `parse_array` and `parse_index` methods (never
reached from `parse`) are not modelled. -/

structure PState where
  tokens : List Token
  i : Nat
deriving Repr

/-- `Parser.at_eof`. -/
def at_eof (s : PState) : Bool := s.tokens.length ≤ s.i

/-- `Parser.current`: the current token, or `("EOF", "")` past the end. -/
def current (s : PState) : Token := (s.tokens.get? s.i).getD ⟨"EOF", ""⟩

/-- `Parser.peek_kind`. -/
def peek_kind (s : PState) : String := (current s).kind

/-- `Parser.peek_val`. -/
def peek_val (s : PState) : String := (current s).text

/-- `Parser.advance`. -/
def advance (s : PState) : PState := if at_eof s then s else ⟨s.tokens, s.i + 1⟩

/-- `Parser.eat_kind` (also `expect`): consume a token of a kind or fail. -/
def eat_kind (name : String) (s : PState) : Except Error (Token × PState) :=
  if peek_kind s = name then .ok (current s, advance s)
  else .error (.expectedKind name (current s))

/-- `Parser.eat_val`: consume a token with a given text or fail. -/
def eat_val (pat : String) (s : PState) : Except Error (Token × PState) :=
  if peek_val s = pat then .ok (current s, advance s)
  else .error (.expectedVal pat (current s))

/-- Kind of `tokens[j]` (used for the one-token lookaheads; the Python code
always guards the subscript with `j < len(tokens)` first). -/
def token_kind_at (s : PState) (j : Nat) : String :=
  ((s.tokens.get? j).getD ⟨"EOF", ""⟩).kind

/-- Text of `tokens[j]`. -/
def token_val_at (s : PState) (j : Nat) : String :=
  ((s.tokens.get? j).getD ⟨"EOF", ""⟩).text

/-- Value of a digit-only `NUM` lexeme. -/
def digitsVal (cs : List Char) : Nat :=
  cs.foldl (fun acc c => acc * 10 + (c.toNat - '0'.toNat)) 0

/-- `int(text)` as applied by `Number.__init__`: succeeds on digit-only
text; a lexeme with a fractional part makes `int()` raise `ValueError`. -/
def strToIntLit (s : String) : Option Int :=
  if s.toList ≠ [] ∧ s.toList.all Char.isDigit then some (digitsVal s.toList) else none

/-- `text[1:-1]`, as applied to `STRING` lexemes by `parse_factor`. -/
def stripQuotes (s : String) : String := ⟨(s.toList.drop 1).dropLast⟩

mutual

/-- `Parser.parse_factor`. -/
def parse_factor : Nat → PState → Except Error (Node × PState)
  | 0, _ => .error .outOfFuel
  | n+1, s =>
    if peek_kind s = "NUM" then do
      let (tok, s1) ← eat_kind "NUM" s
      match strToIntLit tok.text with
      | some v => .ok (.Number v, s1)
      | none => .error (.intConversion tok.text)
    else if peek_kind s = "STRING" then do
      let (tok, s1) ← eat_kind "STRING" s
      .ok (.String (stripQuotes tok.text), s1)
    else if peek_kind s = "LBRACK" then do
      let (_, s1) ← eat_kind "LBRACK" s
      if peek_kind s1 ≠ "RBRACK" then do
        let (item, s2) ← parse_expr n s1
        let (items, s3) ← parse_expr_comma_loop n [item] s2
        let (_, s4) ← eat_kind "RBRACK" s3
        .ok (.ArrayLiteral items, s4)
      else do
        let (_, s2) ← eat_kind "RBRACK" s1
        .ok (.ArrayLiteral [], s2)
    else if peek_kind s = "ID" then
      if ¬ at_eof s ∧ s.i + 1 < s.tokens.length ∧ token_kind_at s (s.i + 1) = "LPAREN" then do
        let (tok, s1) ← eat_kind "ID" s
        let (_, s2) ← eat_kind "LPAREN" s1
        if peek_kind s2 ≠ "RPAREN" then do
          let (a, s3) ← parse_expr n s2
          let (args, s4) ← parse_expr_comma_loop n [a] s3
          let (_, s5) ← eat_kind "RPAREN" s4
          .ok (.Call tok.text args, s5)
        else do
          let (_, s3) ← eat_kind "RPAREN" s2
          .ok (.Call tok.text [], s3)
      else do
        let (tok, s1) ← eat_kind "ID" s
        .ok (.Variable tok.text, s1)
    else if peek_kind s = "LPAREN" then do
      let (_, s1) ← eat_kind "LPAREN" s
      let (e, s2) ← parse_expr n s1
      let (_, s3) ← eat_kind "RPAREN" s2
      .ok (e, s3)
    else .error (.unexpectedToken (current s))

/-- The `while self.peek_kind() == "COMMA"` accumulation loop, textually
identical in `parse_factor`'s array-literal and call-argument branches. -/
def parse_expr_comma_loop : Nat → List Node → PState → Except Error (List Node × PState)
  | 0, _, _ => .error .outOfFuel
  | n+1, acc, s =>
    if peek_kind s = "COMMA" then do
      let (_, s1) ← eat_kind "COMMA" s
      let (e, s2) ← parse_expr n s1
      parse_expr_comma_loop n (acc ++ [e]) s2
    else .ok (acc, s)

/-- `Parser.parse_power`: postfix indexing, then right-associative `^`. -/
def parse_power : Nat → PState → Except Error (Node × PState)
  | 0, _ => .error .outOfFuel
  | n+1, s => do
    let (f, s1) ← parse_factor n s
    let (node, s2) ← parse_power_index_loop n f s1
    if peek_val s2 = "^" then do
      let (opTok, s3) ← eat_val "^" s2
      let (right, s4) ← parse_power n s3
      .ok (.BinOp node opTok.text right, s4)
    else .ok (node, s2)

/-- `parse_power`'s `while self.peek_kind() == "LBRACK"` indexing loop. -/
def parse_power_index_loop : Nat → Node → PState → Except Error (Node × PState)
  | 0, _, _ => .error .outOfFuel
  | n+1, node, s =>
    if peek_kind s = "LBRACK" then do
      let (_, s1) ← eat_kind "LBRACK" s
      let (index, s2) ← parse_expr n s1
      let (_, s3) ← eat_kind "RBRACK" s2
      parse_power_index_loop n (.Index node index) s3
    else .ok (node, s)

/-- `Parser.parse_term`: `*`, `/`, `%`. -/
def parse_term : Nat → PState → Except Error (Node × PState)
  | 0, _ => .error .outOfFuel
  | n+1, s => do
    let (node, s1) ← parse_power n s
    parse_term_loop n node s1

def parse_term_loop : Nat → Node → PState → Except Error (Node × PState)
  | 0, _, _ => .error .outOfFuel
  | n+1, node, s =>
    if peek_val s = "*" ∨ peek_val s = "/" ∨ peek_val s = "%" then do
      let (opTok, s1) ← eat_val (peek_val s) s
      let (right, s2) ← parse_power n s1
      parse_term_loop n (.BinOp node opTok.text right) s2
    else .ok (node, s)

/-- `Parser.parse_expr`: `+`, `-`. -/
def parse_expr : Nat → PState → Except Error (Node × PState)
  | 0, _ => .error .outOfFuel
  | n+1, s => do
    let (node, s1) ← parse_term n s
    parse_expr_loop n node s1

def parse_expr_loop : Nat → Node → PState → Except Error (Node × PState)
  | 0, _, _ => .error .outOfFuel
  | n+1, node, s =>
    if peek_val s = "+" ∨ peek_val s = "-" then do
      let (opTok, s1) ← eat_val (peek_val s) s
      let (right, s2) ← parse_term n s1
      parse_expr_loop n (.BinOp node opTok.text right) s2
    else .ok (node, s)

/-- `Parser.parse_comparison`: `<`, `>`, `<=`, `>=` over `parse_expr`. -/
def parse_comparison : Nat → PState → Except Error (Node × PState)
  | 0, _ => .error .outOfFuel
  | n+1, s => do
    let (node, s1) ← parse_expr n s
    parse_comparison_loop n node s1

def parse_comparison_loop : Nat → Node → PState → Except Error (Node × PState)
  | 0, _, _ => .error .outOfFuel
  | n+1, node, s =>
    if peek_kind s = "LT" ∨ peek_kind s = "GT" ∨ peek_kind s = "LE" ∨ peek_kind s = "GE" then do
      let (opTok, s1) ← eat_kind (peek_kind s) s
      let (right, s2) ← parse_expr n s1
      parse_comparison_loop n (.BinOp node opTok.text right) s2
    else .ok (node, s)

/-- `Parser.parse_equality`: `==`. -/
def parse_equality : Nat → PState → Except Error (Node × PState)
  | 0, _ => .error .outOfFuel
  | n+1, s => do
    let (node, s1) ← parse_comparison n s
    parse_equality_loop n node s1

def parse_equality_loop : Nat → Node → PState → Except Error (Node × PState)
  | 0, _, _ => .error .outOfFuel
  | n+1, node, s =>
    if peek_kind s = "EQ" then do
      let (opTok, s1) ← eat_kind "EQ" s
      let (right, s2) ← parse_comparison n s1
      parse_equality_loop n (.BinOp node opTok.text right) s2
    else .ok (node, s)

/-- `Parser.parse_and`. -/
def parse_and : Nat → PState → Except Error (Node × PState)
  | 0, _ => .error .outOfFuel
  | n+1, s => do
    let (node, s1) ← parse_equality n s
    parse_and_loop n node s1

def parse_and_loop : Nat → Node → PState → Except Error (Node × PState)
  | 0, _, _ => .error .outOfFuel
  | n+1, node, s =>
    if peek_kind s = "AND" then do
      let (opTok, s1) ← eat_kind "AND" s
      let (right, s2) ← parse_equality n s1
      parse_and_loop n (.BinOp node opTok.text right) s2
    else .ok (node, s)

/-- `Parser.parse_or`. -/
def parse_or : Nat → PState → Except Error (Node × PState)
  | 0, _ => .error .outOfFuel
  | n+1, s => do
    let (node, s1) ← parse_and n s
    parse_or_loop n node s1

def parse_or_loop : Nat → Node → PState → Except Error (Node × PState)
  | 0, _, _ => .error .outOfFuel
  | n+1, node, s =>
    if peek_kind s = "OR" then do
      let (opTok, s1) ← eat_kind "OR" s
      let (right, s2) ← parse_and n s1
      parse_or_loop n (.BinOp node opTok.text right) s2
    else .ok (node, s)

/-- `Parser.parse_if`: both branches optional and checked in sequence. -/
def parse_if : Nat → PState → Except Error (Node × PState)
  | 0, _ => .error .outOfFuel
  | n+1, s =>
    if peek_kind s = "IF" then do
      let (_, s1) ← eat_kind "IF" s
      let (condition, s2) ← parse_or n s1
      if peek_kind s2 = "THEN" then do
        let (_, s3) ← eat_kind "THEN" s2
        let (tb, s4) ← parse_statement n s3
        if peek_kind s4 = "ELSE" then do
          let (_, s5) ← eat_kind "ELSE" s4
          let (eb, s6) ← parse_statement n s5
          .ok (.If condition (some tb) (some eb), s6)
        else .ok (.If condition (some tb) none, s4)
      else
        if peek_kind s2 = "ELSE" then do
          let (_, s3) ← eat_kind "ELSE" s2
          let (eb, s4) ← parse_statement n s3
          .ok (.If condition none (some eb), s4)
        else .ok (.If condition none none, s2)
    else parse_or n s

/-- `Parser.parse_assignment`: `name = value`, `name[i]... = value`, or
fall through to `parse_if`. -/
def parse_assignment : Nat → PState → Except Error (Node × PState)
  | 0, _ => .error .outOfFuel
  | n+1, s =>
    if peek_kind s = "ID" ∧ ¬ at_eof s ∧ s.i + 1 < s.tokens.length ∧
        token_kind_at s (s.i + 1) = "ASSIGN" then do
      let (tok, s1) ← eat_kind "ID" s
      let (_, s2) ← eat_kind "ASSIGN" s1
      let (value, s3) ← parse_while n s2
      .ok (.Assignment tok.text value, s3)
    else if peek_kind s = "ID" ∧ ¬ at_eof s ∧ s.i + 1 < s.tokens.length ∧
        token_kind_at s (s.i + 1) = "LBRACK" then do
      let (lhs, s1) ← parse_expr n s
      if peek_kind s1 = "ASSIGN" then do
        let (_, s2) ← eat_kind "ASSIGN" s1
        let (expr, s3) ← parse_while n s2
        match lhs with
        | .Index base index => .ok (.AssignIndex base index expr, s3)
        | _ => .error .invalidAssignTarget
      else .ok (lhs, s1)
    else parse_if n s

/-- `Parser.parse_while`: condition is parsed by `parse_comparison` only,
then a `COLON` and a single-statement body. -/
def parse_while : Nat → PState → Except Error (Node × PState)
  | 0, _ => .error .outOfFuel
  | n+1, s =>
    if peek_kind s = "WHILE" then do
      let (_, s1) ← eat_kind "WHILE" s
      let (condition, s2) ← parse_comparison n s1
      let (_, s3) ← eat_kind "COLON" s2
      let (body, s4) ← parse_statement n s3
      .ok (.While condition body, s4)
    else parse_assignment n s

/-- `Parser.parse_return`. -/
def parse_return : Nat → PState → Except Error (Node × PState)
  | 0, _ => .error .outOfFuel
  | n+1, s =>
    if peek_kind s = "RETURN" then do
      let (_, s1) ← eat_kind "RETURN" s
      let (value, s2) ← parse_or n s1
      .ok (.ReturnValue value, s2)
    else parse_while n s

/-- `Parser.parse_function_def`. -/
def parse_function_def : Nat → PState → Except Error (Node × PState)
  | 0, _ => .error .outOfFuel
  | n+1, s =>
    if peek_kind s = "DEF" then do
      let (_, s1) ← eat_kind "DEF" s
      let (nameTok, s2) ← eat_kind "ID" s1
      let (_, s3) ← eat_val "(" s2
      let (params, s4) ← parse_params_loop n [] s3
      let (_, s5) ← eat_val ")" s4
      let (_, s6) ← eat_kind "COLON" s5
      let (first, s7) ←
        if peek_kind s6 = "RETURN" then parse_return n s6 else parse_assignment n s6
      let (statements, s8) ← parse_fn_body_loop n [first] s7
      .ok (.FunctionDef nameTok.text params statements, s8)
    else parse_return n s

/-- `parse_function_def`'s `while self.peek_val() != ")"` parameter loop. -/
def parse_params_loop : Nat → List (Bool × String) → PState →
    Except Error (List (Bool × String) × PState)
  | 0, _, _ => .error .outOfFuel
  | n+1, acc, s =>
    if peek_val s ≠ ")" then do
      let (is_ref, s1) ←
        if peek_kind s = "REF" then do
          let (_, s1) ← eat_kind "REF" s
          pure (true, s1)
        else pure (false, s)
      let (p, s2) ← eat_kind "ID" s1
      if peek_val s2 = "," then do
        let (_, s3) ← eat_val "," s2
        parse_params_loop n (acc ++ [(is_ref, p.text)]) s3
      else .ok (acc ++ [(is_ref, p.text)], s2)
    else .ok (acc, s)

/-- `parse_function_def`'s body loop: statements accumulate across `;`
until the next statement starts a new `def`, looks like a
call-at-statement-position (`ID` followed by a `(` literal), or input
ends. -/
def parse_fn_body_loop : Nat → List Node → PState → Except Error (List Node × PState)
  | 0, _, _ => .error .outOfFuel
  | n+1, acc, s =>
    if peek_val s = ";" then
      let next_pos := s.i + 1
      if next_pos < s.tokens.length then
        if token_kind_at s next_pos = "DEF" then .ok (acc, s)
        else if token_kind_at s next_pos = "ID" ∧ next_pos + 1 < s.tokens.length ∧
            token_val_at s (next_pos + 1) = "(" then .ok (acc, s)
        else do
          let (_, s1) ← eat_val ";" s
          if ¬ at_eof s1 ∧ peek_kind s1 ≠ "EOF" then do
            let (st, s2) ←
              if peek_kind s1 = "RETURN" then parse_return n s1 else parse_assignment n s1
            parse_fn_body_loop n (acc ++ [st]) s2
          else .ok (acc, s1)
      else .ok (acc, s)
    else .ok (acc, s)

/-- `Parser.parse_statement`. -/
def parse_statement : Nat → PState → Except Error (Node × PState)
  | 0, _ => .error .outOfFuel
  | n+1, s =>
    if peek_kind s = "DEF" then parse_function_def n s
    else if peek_kind s = "RETURN" then parse_return n s
    else if peek_kind s = "WHILE" then parse_while n s
    else parse_assignment n s

/-- `Parser.parse`'s top-level statement loop: parse a statement, then
consume a `;` and continue, or stop. -/
def parse_program_loop : Nat → List Node → PState → Except Error (List Node × PState)
  | 0, _, _ => .error .outOfFuel
  | n+1, acc, s =>
    if ¬ at_eof s then do
      let (tree, s1) ← parse_statement n s
      if peek_val s1 = ";" then do
        let (_, s2) ← eat_val ";" s1
        parse_program_loop n (acc ++ [tree]) s2
      else .ok (acc ++ [tree], s1)
    else .ok (acc, s)

end

/-- The module-level `parse(src)`: lex, run the statement loop from a fresh
cursor, and wrap multiple statements in a `Block` (a single statement is
returned bare). -/
def parse (fuel : Nat) (src : String) : Except Error Node := do
  let tokens ← lex src
  let (statements, _) ← parse_program_loop fuel [] ⟨tokens, 0⟩
  match statements with
  | [st] => .ok st
  | _ => .ok (.Block statements)

/-! ## Values, environments and references
(`src/environment.py`, `src/Interpreter.py`)

Runtime values reachable through `Interpreter.py`'s `evaluate`: Python
ints, bools, `None`, `Reference` handles and `FunctionValue`s (the latter
two are only ever *bound in* an environment by outside callers — this
evaluator never constructs them).  Python environments are heap objects
aliased by `Reference`s, modelled as a heap (list) of environments indexed
by environment id. -/

inductive Value where
  | int (n : Int)
  | bool (b : Bool)
  | none
  | ref (envId : Nat) (name : String)      -- environment.py `Reference(env, name)`
  | closure (params : List (Bool × String)) (body : List Node) (envId : Nat)
      -- ast_nodes.py `FunctionValue(params, statements, env)`
deriving Repr

/-- A flat environment: the `variables` dict (insertion-ordered, as a
Python dict is).  The `Env` classes of `environment.py` and
`Interpreter.py` have identical `define`/`get`/`set` logic. -/
structure Env where
  vars : List (String × Value)   -- the `variables` dict (`variables` is a Lean keyword)
deriving Repr

/-- Dict lookup `name in self.variables` / `self.variables[name]`. -/
def lookupVar : List (String × Value) → String → Option Value
  | [], _ => Option.none
  | (k, v) :: rest, name => if k = name then some v else lookupVar rest name

/-- Dict assignment `self.variables[name] = value`: replace in place if
the key is present, append otherwise. -/
def storeVar : List (String × Value) → String → Value → List (String × Value)
  | [], name, v => [(name, v)]
  | (k, old) :: rest, name, v =>
      if k = name then (name, v) :: rest else (k, old) :: storeVar rest name v

/-- `Env.define`. -/
def Env.define (env : Env) (name : String) (v : Value) : Env :=
  ⟨storeVar env.vars name v⟩

/-- `Env.get`: raises `NameError(f"Undefined variable: {name}")` if the
name is absent. -/
def Env.get (env : Env) (name : String) : Except Error Value :=
  match lookupVar env.vars name with
  | some v => .ok v
  | Option.none => .error (.undefinedVariable name)

/-- `Env.set`: update in place if bound, else `define`. -/
def Env.set (env : Env) (name : String) (v : Value) : Env :=
  if (lookupVar env.vars name).isSome then ⟨storeVar env.vars name v⟩
  else env.define name v

/-- The heap of live environments; an environment id indexes it. -/
abbrev Heap := List Env

/-- `env.get(name)` for the environment with id `e` (ids used by
`evaluate` always index the heap; the empty-env default is unreachable). -/
def envGet (h : Heap) (e : Nat) (name : String) : Except Error Value :=
  (h.getD e ⟨[]⟩).get name

/-- `env.set(name, value)` for the environment with id `e`, as a heap
update (mutation of the shared Python `Env` object). -/
def envSet (h : Heap) (e : Nat) (name : String) (v : Value) : Heap :=
  h.set e ((h.getD e ⟨[]⟩).set name v)

/-- `Reference.get` (`environment.py`): delegate to the referenced
environment's slot. -/
def referenceGet (h : Heap) (envId : Nat) (name : String) : Except Error Value :=
  envGet h envId name

/-- `Reference.set` (`environment.py`): write the referenced environment's
slot — what "writing through" a `Reference` does. -/
def referenceSet (h : Heap) (envId : Nat) (name : String) (v : Value) : Heap :=
  envSet h envId name v

/-! ## Evaluator (`src/Interpreter.py`, `evaluate`, lines 24–93) -/

/-- Python truthiness of the values above (`if condition:` / `not`):
nonzero int, `True`; `None` is falsy; `Reference`/`FunctionValue` objects
are truthy. -/
def truthy : Value → Bool
  | .int n => n ≠ 0
  | .bool b => b
  | .none => false
  | .ref _ _ => true
  | .closure _ _ _ => true

/-- A value as a Python number, for arithmetic and ordering: ints are
themselves, bools coerce (`True == 1`), everything else is unsupported
(host `TypeError`). -/
def asNum : Value → Option Int
  | .int n => some n
  | .bool b => some (if b then 1 else 0)
  | _ => Option.none

/-- Python `left == right` on the modelled values: numeric comparison for
ints/bools, `None == None`, and `False` across kinds.  (Two distinct
`Reference`/`FunctionValue` objects compare by identity in Python; object
identity is not modelled, and `evaluate` never produces two aliases of
such objects to compare.) -/
def pyEq : Value → Value → Bool
  | .none, .none => true
  | l, r =>
    match asNum l, asNum r with
    | some a, some b => a = b
    | _, _ => false

/-- The `BinOp` operator table of `evaluate` (lines 35–59): `+ - * / % ^`
`== < > and or`, with `//` as `Int.fdiv` and `%` as `Int.fmod` (Python
floor conventions), and the final `RuntimeError(f"Unknown operator: ...")`
for every other op — including `<=` and `>=`.  A zero divisor raises the
host `ZeroDivisionError`; `**` with a negative exponent yields a Python
float, which is outside the integer value model (`nonIntegerResult`). -/
def applyBinOp (op : String) (left right : Value) : Except Error Value :=
  if op = "+" then
    match asNum left, asNum right with
    | some a, some b => .ok (.int (a + b))
    | _, _ => .error .typeError
  else if op = "-" then
    match asNum left, asNum right with
    | some a, some b => .ok (.int (a - b))
    | _, _ => .error .typeError
  else if op = "*" then
    match asNum left, asNum right with
    | some a, some b => .ok (.int (a * b))
    | _, _ => .error .typeError
  else if op = "/" then
    match asNum left, asNum right with
    | some a, some b => if b = 0 then .error .zeroDivision else .ok (.int (Int.fdiv a b))
    | _, _ => .error .typeError
  else if op = "%" then
    match asNum left, asNum right with
    | some a, some b => if b = 0 then .error .zeroDivision else .ok (.int (Int.fmod a b))
    | _, _ => .error .typeError
  else if op = "^" then
    match asNum left, asNum right with
    | some a, some b =>
        if b < 0 then .error .nonIntegerResult else .ok (.int (a ^ b.toNat))
    | _, _ => .error .typeError
  else if op = "==" then .ok (.bool (pyEq left right))
  else if op = "<" then
    match asNum left, asNum right with
    | some a, some b => .ok (.bool (a < b))
    | _, _ => .error .typeError
  else if op = ">" then
    match asNum left, asNum right with
    | some a, some b => .ok (.bool (a > b))
    | _, _ => .error .typeError
  else if op = "and" then .ok (if truthy left then right else left)
  else if op = "or" then .ok (if truthy left then left else right)
  else .error (.unknownOperator op)

mutual

/-- `evaluate(node, env)` of `src/Interpreter.py` (lines 24–93), over the
environment with id `e` in heap `h`.  The `isinstance` chain handles
`Number`, `Variable`, `BinOp`, `While`, `If`, `UnaryOp` and `Assignment`;
every other node class falls to
`RuntimeError(f"Unknown AST node: {type(node)}")`. -/
def evaluate : Nat → Node → Nat → Heap → Except Error (Value × Heap)
  | 0, _, _, _ => .error .outOfFuel
  | _+1, .Number value, _, h => .ok (.int value, h)
  | _+1, .Variable name, e, h => do
      let v ← envGet h e name
      .ok (v, h)
  | n+1, .BinOp left op right, e, h => do
      let (lv, h1) ← evaluate n left e h
      let (rv, h2) ← evaluate n right e h1
      let v ← applyBinOp op lv rv
      .ok (v, h2)
  | n+1, .While condition body, e, h =>
      -- `result = None`, then loop: re-evaluate the condition, break when
      -- falsy, else store the body's value in `result`.
      evalWhileLoop n condition body e h .none
  | n+1, .If condition then_branch else_branch, e, h => do
      let (cv, h1) ← evaluate n condition e h
      if truthy cv then
        match then_branch with
        | some tb => evaluate n tb e h1
        | Option.none => .ok (.none, h1)
      else
        match else_branch with
        | some eb => evaluate n eb e h1
        | Option.none => .ok (.none, h1)
  | n+1, .UnaryOp op operand, e, h => do
      let (ov, h1) ← evaluate n operand e h
      if op = "not" then .ok (.bool (! truthy ov), h1)
      else .error (.unknownUnaryOperator op)
  | n+1, .Assignment name value, e, h => do
      let (v, h1) ← evaluate n value e h
      .ok (.none, envSet h1 e name v)   -- assignments return no value
  | _+1, node, _, _ => .error (.unknownNode (nodeKindName node))

/-- The `while True:` loop of the `While` branch, carrying `result`
(initially `None`, thereafter the last body value). -/
def evalWhileLoop : Nat → Node → Node → Nat → Heap → Value → Except Error (Value × Heap)
  | 0, _, _, _, _, _ => .error .outOfFuel
  | n+1, condition, body, e, h, result => do
      let (cv, h1) ← evaluate n condition e h
      if truthy cv then do
        let (bv, h2) ← evaluate n body e h1
        evalWhileLoop n condition body e h2 bv
      else .ok (result, h1)

end

/-- Parse a source text and evaluate it in a fresh environment (the
pipeline used by the spec's `parse_and_eval` properties). -/
def parse_and_eval (fuel : Nat) (src : String) : Except Error Value := do
  let ast ← parse fuel src
  let (v, _) ← evaluate fuel ast 0 [⟨[]⟩]
  pure v

/-! ## Specification-side relations -/

/-- The run of a `While` loop, as the spec describes it: from heap `h`
with accumulated result `acc`, the loop re-evaluates `c` before every
iteration, runs `b` only while `c` is truthy (each body value becoming
the new accumulated result), and finishes with the accumulated result
`res` and heap `hfin` once `c` evaluates falsy.  The `∃ fuel` in the
premises hides the embedding's fuel artifact. -/
inductive LoopRun (c b : Node) (e : Nat) : Heap → Value → Value → Heap → Prop where
  | stop (h : Heap) (cv : Value) (h1 : Heap) (acc : Value)
      (hc : ∃ n, evaluate n c e h = .ok (cv, h1)) (hfalse : truthy cv = false) :
      LoopRun c b e h acc acc h1
  | step (h : Heap) (cv : Value) (h1 : Heap) (bv : Value) (h2 : Heap)
      (acc res : Value) (hfin : Heap)
      (hc : ∃ n, evaluate n c e h = .ok (cv, h1)) (htrue : truthy cv = true)
      (hb : ∃ n, evaluate n b e h1 = .ok (bv, h2))
      (hrest : LoopRun c b e h2 bv res hfin) :
      LoopRun c b e h acc res hfin

/-- A source text every character of which belongs to some token,
whitespace run, or comment: the greedy first-match scan of the non-
`MISMATCH` patterns consumes it completely. -/
inductive Covers : List Char → Prop where
  | nil : Covers []
  | cons (cs : List Char) (k : String) (t : List Char) :
      firstMatch SPECR cs = some (k, t) → Covers (cs.drop t.length) → Covers cs

/-! ## One-step unfolding equations for the evaluator

Each lemma restates one branch of `evaluate`/`evalWhileLoop` with its
`do`-binds written as explicit matches, giving precise control when
rewriting. -/

@[simp] theorem except_bind_ok {α β ε : Type} (a : α) (f : α → Except ε β) :
    (Except.ok a >>= f : Except ε β) = f a := rfl

@[simp] theorem except_bind_error {α β ε : Type} (err : ε) (f : α → Except ε β) :
    (Except.error err >>= f : Except ε β) = .error err := rfl

theorem evaluate_BinOp_eq (n : Nat) (l : Node) (op : String) (rr : Node) (e : Nat) (h : Heap) :
    evaluate (n+1) (.BinOp l op rr) e h =
      (match evaluate n l e h with
       | .error err => .error err
       | .ok (lv, h1) =>
         match evaluate n rr e h1 with
         | .error err => .error err
         | .ok (rv, h2) =>
           match applyBinOp op lv rv with
           | .error err => .error err
           | .ok v => .ok (v, h2)) := by
  cases hl : evaluate n l e h with
  | error err => simp [evaluate, hl, Except.bind]
  | ok p =>
    obtain ⟨lv, h1⟩ := p
    cases hr : evaluate n rr e h1 with
    | error err => simp [evaluate, hl, hr, Except.bind]
    | ok q =>
      obtain ⟨rv, h2⟩ := q
      cases ha : applyBinOp op lv rv with
      | error err => simp [evaluate, hl, hr, ha, Except.bind]
      | ok v => simp [evaluate, hl, hr, ha, Except.bind]

theorem evaluate_While_eq (n : Nat) (c b : Node) (e : Nat) (h : Heap) :
    evaluate (n+1) (.While c b) e h = evalWhileLoop n c b e h .none := rfl

theorem evaluate_If_eq (n : Nat) (c : Node) (tb eb : Option Node) (e : Nat) (h : Heap) :
    evaluate (n+1) (.If c tb eb) e h =
      (match evaluate n c e h with
       | .error err => .error err
       | .ok (cv, h1) =>
         if truthy cv then
           match tb with
           | some t => evaluate n t e h1
           | Option.none => .ok (.none, h1)
         else
           match eb with
           | some t => evaluate n t e h1
           | Option.none => .ok (.none, h1)) := by
  cases hc : evaluate n c e h with
  | error err => simp [evaluate, hc, Except.bind]
  | ok p =>
    obtain ⟨cv, h1⟩ := p
    by_cases htr : truthy cv = true <;>
      cases tb <;> cases eb <;> simp [evaluate, hc, Except.bind, htr]

theorem evaluate_UnaryOp_eq (n : Nat) (op : String) (operand : Node) (e : Nat) (h : Heap) :
    evaluate (n+1) (.UnaryOp op operand) e h =
      (match evaluate n operand e h with
       | .error err => .error err
       | .ok (ov, h1) =>
         if op = "not" then .ok (.bool (! truthy ov), h1)
         else .error (.unknownUnaryOperator op)) := by
  cases ho : evaluate n operand e h with
  | error err => simp [evaluate, ho, Except.bind]
  | ok p =>
    obtain ⟨ov, h1⟩ := p
    by_cases hop : op = "not" <;> simp [evaluate, ho, Except.bind, hop]

theorem evaluate_Assignment_eq (n : Nat) (name : String) (value : Node) (e : Nat) (h : Heap) :
    evaluate (n+1) (.Assignment name value) e h =
      (match evaluate n value e h with
       | .error err => .error err
       | .ok (v, h1) => .ok (.none, envSet h1 e name v)) := by
  cases hv : evaluate n value e h with
  | error err => simp [evaluate, hv, Except.bind]
  | ok p =>
    obtain ⟨v, h1⟩ := p
    simp [evaluate, hv, Except.bind]

theorem evalWhileLoop_succ_eq (n : Nat) (c b : Node) (e : Nat) (h : Heap) (result : Value) :
    evalWhileLoop (n+1) c b e h result =
      (match evaluate n c e h with
       | .error err => .error err
       | .ok (cv, h1) =>
         if truthy cv then
           match evaluate n b e h1 with
           | .error err => .error err
           | .ok (bv, h2) => evalWhileLoop n c b e h2 bv
         else .ok (result, h1)) := by
  cases hc : evaluate n c e h with
  | error err => simp [evalWhileLoop, hc, Except.bind]
  | ok p =>
    obtain ⟨cv, h1⟩ := p
    by_cases htr : truthy cv = true
    · cases hb : evaluate n b e h1 with
      | error err => simp [evalWhileLoop, hc, hb, Except.bind, htr]
      | ok q =>
        obtain ⟨bv, h2⟩ := q
        simp [evalWhileLoop, hc, hb, Except.bind, htr]
    · simp only [Bool.not_eq_true] at htr
      simp [evalWhileLoop, hc, Except.bind, htr]

/-! ## Fuel monotonicity of the evaluator

Fuel is an artifact of the embedding: a successful run is preserved by
any larger fuel.  Needed to compose runs of sub-expressions when
reasoning about `While` loops. -/

theorem evaluate_step_mono :
    ∀ n : Nat,
      (∀ node e h r, evaluate n node e h = .ok r → evaluate (n+1) node e h = .ok r) ∧
      (∀ c b e h acc r, evalWhileLoop n c b e h acc = .ok r →
        evalWhileLoop (n+1) c b e h acc = .ok r) := by
  intro n
  induction n with
  | zero =>
    refine ⟨?_, ?_⟩
    · intro node e h r hev
      simp [evaluate] at hev
    · intro c b e h acc r hev
      simp [evalWhileLoop] at hev
  | succ n ih =>
    obtain ⟨ihE, ihW⟩ := ih
    refine ⟨?_, ?_⟩
    · intro node e h r hev
      cases node with
      | Number v => exact hev
      | String v => simp [evaluate] at hev
      | Variable name => exact hev
      | BinOp l op rr =>
        rw [evaluate_BinOp_eq] at hev ⊢
        split at hev
        · exact absurd hev (by simp)
        · rename_i lv h1 hl
          rw [ihE l e h (lv, h1) hl]
          split at hev
          · exact absurd hev (by simp)
          · rename_i rv h2 hr
            rw [ihE rr e h1 (rv, h2) hr]
            exact hev
      | While c b =>
        rw [evaluate_While_eq] at hev ⊢
        exact ihW c b e h .none r hev
      | If c tb eb =>
        rw [evaluate_If_eq] at hev ⊢
        split at hev
        · exact absurd hev (by simp)
        · rename_i cv h1 hc
          rw [ihE c e h (cv, h1) hc]
          by_cases htr : truthy cv = true
          · simp only [htr, if_true] at hev ⊢
            cases tb with
            | none => exact hev
            | some t => exact ihE t e h1 r hev
          · simp only [Bool.not_eq_true] at htr
            simp only [htr, Bool.false_eq_true, if_false] at hev ⊢
            cases eb with
            | none => exact hev
            | some t => exact ihE t e h1 r hev
      | UnaryOp op operand =>
        rw [evaluate_UnaryOp_eq] at hev ⊢
        split at hev
        · exact absurd hev (by simp)
        · rename_i ov h1 ho
          rw [ihE operand e h (ov, h1) ho]
          exact hev
      | Assignment name value =>
        rw [evaluate_Assignment_eq] at hev ⊢
        split at hev
        · exact absurd hev (by simp)
        · rename_i v h1 hv
          rw [ihE value e h (v, h1) hv]
          exact hev
      | FunctionDef name params statements => simp [evaluate] at hev
      | Call name args => simp [evaluate] at hev
      | ReturnValue v => simp [evaluate] at hev
      | Block statements => simp [evaluate] at hev
      | ArrayLiteral items => simp [evaluate] at hev
      | Index b i => simp [evaluate] at hev
      | AssignIndex b i ex => simp [evaluate] at hev
    · intro c b e h acc r hev
      rw [evalWhileLoop_succ_eq] at hev ⊢
      split at hev
      · exact absurd hev (by simp)
      · rename_i cv h1 hc
        rw [ihE c e h (cv, h1) hc]
        by_cases htr : truthy cv = true
        · simp only [htr, if_true] at hev ⊢
          split at hev
          · exact absurd hev (by simp)
          · rename_i bv h2 hb
            rw [ihE b e h1 (bv, h2) hb]
            exact ihW c b e h2 bv r hev
        · simp only [Bool.not_eq_true] at htr
          simp only [htr, Bool.false_eq_true, if_false] at hev ⊢
          exact hev

/-- Any successful evaluation is preserved by larger fuel. -/
theorem evaluate_mono {n m : Nat} (hle : n ≤ m) {node : Node} {e : Nat} {h : Heap}
    {r : Value × Heap} (hev : evaluate n node e h = .ok r) :
    evaluate m node e h = .ok r := by
  obtain ⟨k, rfl⟩ := Nat.exists_eq_add_of_le hle
  clear hle
  induction k with
  | zero => exact hev
  | succ k ih => exact (evaluate_step_mono (n + k)).1 _ _ _ _ ih

/-- Any successful run of the `While` loop is preserved by larger fuel. -/
theorem evalWhileLoop_mono {n m : Nat} (hle : n ≤ m) {c b : Node} {e : Nat} {h : Heap}
    {acc : Value} {r : Value × Heap} (hev : evalWhileLoop n c b e h acc = .ok r) :
    evalWhileLoop m c b e h acc = .ok r := by
  obtain ⟨k, rfl⟩ := Nat.exists_eq_add_of_le hle
  clear hle
  induction k with
  | zero => exact hev
  | succ k ih => exact (evaluate_step_mono (n + k)).2 _ _ _ _ _ _ ih

/-! ## The `While` loop implements `LoopRun` -/

/-- A terminating spec-side loop run is computed by `evalWhileLoop`. -/
theorem loopRun_evalWhileLoop {c b : Node} {e : Nat} {h : Heap} {acc res : Value} {hfin : Heap}
    (hrun : LoopRun c b e h acc res hfin) :
    ∃ n, evalWhileLoop n c b e h acc = .ok (res, hfin) := by
  induction hrun with
  | stop h cv h1 acc hc hfalse =>
    obtain ⟨nc, hc⟩ := hc
    refine ⟨nc + 1, ?_⟩
    rw [evalWhileLoop_succ_eq, hc]
    simp [hfalse]
  | step h cv h1 bv h2 acc res hfin hc htrue hb hrest ih =>
    obtain ⟨nc, hc⟩ := hc
    obtain ⟨nb, hb⟩ := hb
    obtain ⟨nr, hr⟩ := ih
    refine ⟨max nc (max nb nr) + 1, ?_⟩
    rw [evalWhileLoop_succ_eq, evaluate_mono (le_max_left _ _) hc]
    simp only [htrue, if_true]
    rw [evaluate_mono (le_trans (le_max_left _ _) (le_max_right _ _)) hb]
    exact evalWhileLoop_mono (le_trans (le_max_right _ _) (le_max_right _ _)) hr

/-! ## Lexer characterization: the scan fails exactly at a character no
token/whitespace/comment pattern matches, and the error names that
character and its offset -/

theorem drop_get? {α : Type} (l : List α) : ∀ n m : Nat, (l.drop n).get? m = l.get? (n + m) := by
  induction l with
  | nil => intro n m; simp
  | cons a l ih =>
    intro n m
    cases n with
    | zero => simp
    | succ n => simpa [Nat.succ_add] using ih n m

theorem drop_add {α : Type} (l : List α) : ∀ n m : Nat, (l.drop n).drop m = l.drop (n + m) := by
  induction l with
  | nil => intro n m; simp
  | cons a l ih =>
    intro n m
    cases n with
    | zero => simp
    | succ n => simpa [Nat.succ_add] using ih n m

theorem matchNum_nonempty {cs t : List Char} (h : matchNum cs = some t) : t ≠ [] := by
  simp only [matchNum] at h
  split at h
  · exact Option.noConfusion h
  · rename_i hne
    split at h
    · split at h
      · injection h with h'
        subst h'
        simpa [List.isEmpty_iff] using hne
      · injection h with h'
        subst h'
        simp
    · injection h with h'
      subst h'
      simpa [List.isEmpty_iff] using hne

theorem matchString_nonempty {cs t : List Char} (h : matchString cs = some t) : t ≠ [] := by
  unfold matchString at h
  split at h
  · obtain ⟨u, _, hu⟩ := Option.map_eq_some'.mp h
    rw [← hu]
    simp
  · exact Option.noConfusion h

theorem matchLit_nonempty {lit : String} {cs t : List Char} (h : matchLit lit cs = some t) :
    t ≠ [] := by
  simp only [matchLit] at h
  split at h
  · rename_i hcond
    injection h with h'
    subst h'
    exact hcond.1
  · exact Option.noConfusion h

theorem matchWord_nonempty {w : String} (hw : w.toList ≠ []) {cs t : List Char}
    (h : matchWord w cs = some t) : t ≠ [] := by
  simp only [matchWord] at h
  split at h
  · split at h
    · injection h with h'
      subst h'
      exact hw
    · split at h
      · exact Option.noConfusion h
      · injection h with h'
        subst h'
        exact hw
  · exact Option.noConfusion h

theorem matchId_nonempty {cs t : List Char} (h : matchId cs = some t) : t ≠ [] := by
  unfold matchId at h
  split at h
  · split at h
    · injection h with h'
      subst h'
      simp
    · exact Option.noConfusion h
  · exact Option.noConfusion h

theorem matchWS_nonempty {cs t : List Char} (h : matchWS cs = some t) : t ≠ [] := by
  simp only [matchWS] at h
  split at h
  · exact Option.noConfusion h
  · rename_i hne
    injection h with h'
    subst h'
    simpa [List.isEmpty_iff] using hne

theorem matchComment_nonempty {cs t : List Char} (h : matchComment cs = some t) : t ≠ [] := by
  unfold matchComment at h
  split at h
  · injection h with h'
    subst h'
    simp
  · exact Option.noConfusion h

theorem matchMismatch_nonempty {cs t : List Char} (h : matchMismatch cs = some t) : t ≠ [] := by
  unfold matchMismatch at h
  split at h
  · split at h
    · exact Option.noConfusion h
    · injection h with h'
      subst h'
      simp
  · exact Option.noConfusion h

/-- Every matcher of the `SPEC` table returns a nonempty lexeme: the scan
always advances. -/
theorem spec_matchers_nonempty :
    ∀ p ∈ SPEC, ∀ cs t, p.2 cs = some t → t ≠ [] := by
  intro p hp
  simp only [SPEC, SPECR, List.mem_append, List.mem_cons, List.not_mem_nil, or_false,
    or_assoc] at hp
  rcases hp with rfl|rfl|rfl|rfl|rfl|rfl|rfl|rfl|rfl|rfl|rfl|rfl|rfl|rfl|rfl|rfl|rfl|rfl|rfl|rfl|rfl|rfl|rfl|rfl|rfl|rfl|rfl|rfl|rfl|rfl|rfl|rfl|rfl|rfl|rfl <;>
    first
      | (intro cs t h; exact matchNum_nonempty h)
      | (intro cs t h; exact matchString_nonempty h)
      | (intro cs t h; exact matchLit_nonempty h)
      | (intro cs t h; exact matchWord_nonempty (by decide) h)
      | (intro cs t h; exact matchId_nonempty h)
      | (intro cs t h; exact matchWS_nonempty h)
      | (intro cs t h; exact matchComment_nonempty h)
      | (intro cs t h; exact matchMismatch_nonempty h)

/-- A successful first-match over a table of nonempty matchers yields a
nonempty lexeme. -/
theorem firstMatch_ne_nil :
    ∀ ps : List (String × (List Char → Option (List Char))),
      (∀ p ∈ ps, ∀ cs t, p.2 cs = some t → t ≠ []) →
      ∀ cs k t, firstMatch ps cs = some (k, t) → t ≠ [] := by
  intro ps
  induction ps with
  | nil =>
    intro _ cs k t h
    simp [firstMatch] at h
  | cons p ps ih =>
    intro hps cs k t h
    obtain ⟨kp, mp⟩ := p
    simp only [firstMatch] at h
    split at h
    · rename_i u hu
      injection h with h'
      injection h' with hk ht
      subst ht
      exact hps (kp, mp) (by simp) cs u hu
    · exact ih (fun q hq => hps q (by simp [hq])) cs k t h

/-- `firstMatch` returns `none` exactly when every table entry fails. -/
theorem firstMatch_eq_none_iff (ps : List (String × (List Char → Option (List Char))))
    (cs : List Char) : firstMatch ps cs = none ↔ ∀ p ∈ ps, p.2 cs = none := by
  induction ps with
  | nil => simp [firstMatch]
  | cons p ps ih =>
    obtain ⟨kp, mp⟩ := p
    simp only [firstMatch]
    constructor
    · intro h
      split at h
      · exact Option.noConfusion h
      · rename_i hm
        intro q hq
        rcases List.mem_cons.mp hq with rfl | hq'
        · exact hm
        · exact (ih.mp h) q hq'
    · intro h
      have hm : mp cs = none := h (kp, mp) (by simp)
      rw [hm]
      exact ih.mpr (fun q hq => h q (by simp [hq]))

/-- Ordered alternation over an appended table. -/
theorem firstMatch_append (xs ys : List (String × (List Char → Option (List Char))))
    (cs : List Char) :
    firstMatch (xs ++ ys) cs =
      (match firstMatch xs cs with
       | some r => some r
       | none => firstMatch ys cs) := by
  induction xs with
  | nil => simp [firstMatch]
  | cons p xs ih =>
    obtain ⟨kp, mp⟩ := p
    simp only [List.cons_append, firstMatch]
    cases mp cs with
    | some u => simp
    | none => simpa using ih

/-- The kind a first-match reports is the kind of some table entry. -/
theorem firstMatch_mem :
    ∀ ps : List (String × (List Char → Option (List Char))), ∀ cs k t,
      firstMatch ps cs = some (k, t) → k ∈ ps.map Prod.fst := by
  intro ps
  induction ps with
  | nil =>
    intro cs k t h
    simp [firstMatch] at h
  | cons p ps ih =>
    intro cs k t h
    obtain ⟨kp, mp⟩ := p
    simp only [firstMatch] at h
    split at h
    · injection h with h'
      injection h' with hk ht
      subst hk
      simp
    · simp [ih cs k t h]

/-- On a nonempty scan suffix some `SPEC` pattern always matches (`WS`
accepts a newline, `MISMATCH` accepts everything else). -/
theorem firstMatch_SPEC_total {cs : List Char} (hne : cs ≠ []) :
    firstMatch SPEC cs ≠ none := by
  obtain ⟨c, rest, rfl⟩ := List.exists_cons_of_ne_nil hne
  intro h
  rw [firstMatch_eq_none_iff] at h
  by_cases hc : c = '\n'
  · have hws := h ("WS", matchWS) (by simp [SPEC, SPECR])
    subst hc
    simp [matchWS, List.takeWhile_cons, isSpaceChar] at hws
  · have hmm := h ("MISMATCH", matchMismatch) (by simp [SPEC])
    simp [matchMismatch, hc] at hmm

/-- No entry of `SPECR` is the catch-all. -/
theorem firstMatch_SPECR_kind {cs : List Char} {k : String} {t : List Char}
    (h : firstMatch SPECR cs = some (k, t)) : k ≠ "MISMATCH" := by
  have hk := firstMatch_mem SPECR cs k t h
  intro heq
  subst heq
  exact absurd hk (by decide)

/-- A `SPECR` match is the `SPEC` match (`MISMATCH` is tried last). -/
theorem firstMatch_SPEC_of_SPECR {cs : List Char} {r : String × List Char}
    (h : firstMatch SPECR cs = some r) : firstMatch SPEC cs = some r := by
  rw [SPEC, firstMatch_append, h]

/-- A `MISMATCH` outcome means no token/whitespace/comment pattern
matched. -/
theorem firstMatch_SPEC_mismatch {cs t : List Char}
    (h : firstMatch SPEC cs = some ("MISMATCH", t)) : firstMatch SPECR cs = none := by
  cases hR : firstMatch SPECR cs with
  | none => rfl
  | some r =>
    obtain ⟨k, t'⟩ := r
    rw [firstMatch_SPEC_of_SPECR hR] at h
    injection h with h'
    injection h' with hk ht
    exact absurd hk (firstMatch_SPECR_kind hR)

/-- A non-`MISMATCH` outcome of the full table is a `SPECR` outcome. -/
theorem firstMatch_SPEC_not_mismatch {cs : List Char} {k : String} {t : List Char}
    (h : firstMatch SPEC cs = some (k, t)) (hk : k ≠ "MISMATCH") :
    firstMatch SPECR cs = some (k, t) := by
  cases hR : firstMatch SPECR cs with
  | some r =>
    rw [firstMatch_SPEC_of_SPECR hR] at h
    injection h with h'
    rw [h']
  | none =>
    rw [SPEC, firstMatch_append, hR] at h
    simp only [firstMatch] at h
    split at h
    · injection h with h'
      injection h' with hk' ht'
      exact absurd hk'.symm hk
    · exact Option.noConfusion h

/-- One-step unfolding of the scan loop on a nonempty suffix. -/
theorem lexAux_cons_eq (fuel : Nat) (c : Char) (rest : List Char) (pos : Nat) :
    lexAux (fuel+1) (c :: rest) pos =
      (match firstMatch SPEC (c :: rest) with
       | none => lexAux fuel rest (pos + 1)
       | some (k, t) =>
         if k = "WS" ∨ k = "COMMENT" then
           lexAux fuel ((c :: rest).drop t.length) (pos + t.length)
         else if k = "MISMATCH" then .error (.lexError c pos)
         else (lexAux fuel ((c :: rest).drop t.length) (pos + t.length)).map
           (fun toks => ⟨k, ⟨t⟩⟩ :: toks)) := rfl

/-- The scan loop succeeds exactly on a covered suffix, and a lexing
error carries the first uncovered character and its absolute offset. -/
theorem lexAux_char :
    ∀ fuel : Nat, ∀ cs : List Char, ∀ pos : Nat, cs.length < fuel →
      ((∃ toks, lexAux fuel cs pos = .ok toks) ↔ Covers cs) ∧
      (∀ c i, lexAux fuel cs pos = .error (.lexError c i) →
        ∃ j, i = pos + j ∧ cs.get? j = some c ∧ firstMatch SPECR (cs.drop j) = none) := by
  intro fuel
  induction fuel with
  | zero =>
    intro cs pos h
    exact absurd h (Nat.not_lt_zero _)
  | succ fuel ih =>
    intro cs pos hlen
    cases cs with
    | nil =>
      refine ⟨⟨fun _ => Covers.nil, fun _ => ⟨[], rfl⟩⟩, ?_⟩
      intro c i h
      exact absurd h (by simp [lexAux])
    | cons c rest =>
      cases hm : firstMatch SPEC (c :: rest) with
      | none => exact absurd hm (firstMatch_SPEC_total (by simp))
      | some kt =>
        obtain ⟨k, t⟩ := kt
        have htne : t ≠ [] := firstMatch_ne_nil SPEC spec_matchers_nonempty _ _ _ hm
        have htlen : 1 ≤ t.length := by
          cases t with
          | nil => exact absurd rfl htne
          | cons a u => simp
        have hdlen : ((c :: rest).drop t.length).length < fuel := by
          rw [List.length_drop]
          simp only [List.length_cons] at hlen ⊢
          omega
        obtain ⟨ih1, ih2⟩ := ih ((c :: rest).drop t.length) (pos + t.length) hdlen
        by_cases hws : k = "WS" ∨ k = "COMMENT"
        · have hstep : lexAux (fuel+1) (c :: rest) pos =
              lexAux fuel ((c :: rest).drop t.length) (pos + t.length) := by
            rw [lexAux_cons_eq, hm]
            simp [hws]
          have hkm : k ≠ "MISMATCH" := by rcases hws with rfl | rfl <;> decide
          have hSPECR := firstMatch_SPEC_not_mismatch hm hkm
          refine ⟨?_, ?_⟩
          · rw [hstep]
            constructor
            · intro hok
              exact Covers.cons _ k t hSPECR (ih1.mp hok)
            · intro hcov
              cases hcov with
              | cons _ k' t' hm' hcov' =>
                rw [hSPECR] at hm'
                injection hm' with h'
                injection h' with hk' ht'
                subst ht'
                exact ih1.mpr hcov'
          · intro c' i h
            rw [hstep] at h
            obtain ⟨j, hj, hget, hnone⟩ := ih2 c' i h
            refine ⟨t.length + j, by omega, ?_, ?_⟩
            · rw [← drop_get?]
              exact hget
            · rw [← drop_add]
              exact hnone
        · by_cases hmm : k = "MISMATCH"
          · subst hmm
            have hstep : lexAux (fuel+1) (c :: rest) pos = .error (.lexError c pos) := by
              rw [lexAux_cons_eq, hm]
              simp [hws]
            have hnone : firstMatch SPECR (c :: rest) = none := firstMatch_SPEC_mismatch hm
            refine ⟨?_, ?_⟩
            · rw [hstep]
              constructor
              · rintro ⟨toks, h⟩
                exact absurd h (by simp)
              · intro hcov
                cases hcov with
                | cons _ k' t' hm' _ =>
                  rw [hnone] at hm'
                  exact Option.noConfusion hm'
            · intro c' i h
              rw [hstep] at h
              injection h with h'
              injection h' with hc' hi'
              refine ⟨0, by omega, by simp [← hc'], by simpa using hnone⟩
          · have hstep : lexAux (fuel+1) (c :: rest) pos =
                (lexAux fuel ((c :: rest).drop t.length) (pos + t.length)).map
                  (fun toks => ⟨k, ⟨t⟩⟩ :: toks) := by
              rw [lexAux_cons_eq, hm]
              simp [hws, hmm]
            have hSPECR := firstMatch_SPEC_not_mismatch hm hmm
            refine ⟨?_, ?_⟩
            · rw [hstep]
              constructor
              · rintro ⟨toks, h⟩
                cases hrec : lexAux fuel ((c :: rest).drop t.length) (pos + t.length) with
                | error err =>
                  rw [hrec] at h
                  exact absurd h (by simp [Except.map])
                | ok l => exact Covers.cons _ k t hSPECR (ih1.mp ⟨l, hrec⟩)
              · intro hcov
                cases hcov with
                | cons _ k' t' hm' hcov' =>
                  rw [hSPECR] at hm'
                  injection hm' with h'
                  injection h' with hk' ht'
                  subst ht'
                  obtain ⟨l, hrec⟩ := ih1.mpr hcov'
                  exact ⟨_, by rw [hrec]; rfl⟩
            · intro c' i h
              rw [hstep] at h
              cases hrec : lexAux fuel ((c :: rest).drop t.length) (pos + t.length) with
              | ok l =>
                rw [hrec] at h
                exact absurd h (by simp [Except.map])
              | error err =>
                rw [hrec] at h
                have herr : err = Error.lexError c' i := by
                  simpa [Except.map] using h
                obtain ⟨j, hj, hget, hnone⟩ := ih2 c' i (by rw [hrec, herr])
                refine ⟨t.length + j, by omega, ?_, ?_⟩
                · rw [← drop_get?]
                  exact hget
                · rw [← drop_add]
                  exact hnone

/-! ## Concrete sanity checks

End-to-end runs of the embedded pipeline on the spec's own examples. -/

example : lex "x = 4; x + 5" =
    .ok [⟨"ID", "x"⟩, ⟨"ASSIGN", "="⟩, ⟨"NUM", "4"⟩, ⟨"SEMICOLON", ";"⟩,
         ⟨"ID", "x"⟩, ⟨"PLUS", "+"⟩, ⟨"NUM", "5"⟩] := rfl

example : lex "while i <= 3 : i" =
    .ok [⟨"WHILE", "while"⟩, ⟨"ID", "i"⟩, ⟨"LE", "<="⟩, ⟨"NUM", "3"⟩,
         ⟨"COLON", ":"⟩, ⟨"ID", "i"⟩] := rfl

example : lex "a $ b" = .error (.lexError '$' 2) := rfl

example : lex "ref x # comment" = .ok [⟨"REF", "ref"⟩, ⟨"ID", "x"⟩] := rfl

example : lex "refx andy" = .ok [⟨"ID", "refx"⟩, ⟨"ID", "andy"⟩] := rfl

example : parse 100 "1 + 2 * 3" =
    .ok (.BinOp (.Number 1) "+" (.BinOp (.Number 2) "*" (.Number 3))) := rfl

example : parse 100 "x = 4; x + 5" =
    .ok (.Block [.Assignment "x" (.Number 4),
                 .BinOp (.Variable "x") "+" (.Number 5)]) := rfl

example : parse 100 "2 ^ 3 ^ 2" =
    .ok (.BinOp (.Number 2) "^" (.BinOp (.Number 3) "^" (.Number 2))) := rfl

example : parse 100 "while i < 3 : i = i + 1" =
    .ok (.While (.BinOp (.Variable "i") "<" (.Number 3))
                (.Assignment "i" (.BinOp (.Variable "i") "+" (.Number 1)))) := rfl

example : parse 100 "while 1 == 1 : x = 1" =
    .error (.expectedKind "COLON" ⟨"EQ", "=="⟩) := rfl

example : parse 100 "def add(a, ref b) : return a + b" =
    .ok (.FunctionDef "add" [(false, "a"), (true, "b")]
          [.ReturnValue (.BinOp (.Variable "a") "+" (.Variable "b"))]) := rfl

example : parse 100 "add(2, 3)" =
    .ok (.Call "add" [.Number 2, .Number 3]) := rfl

example : parse 100 "if 1 < 2 then 3 else 4" =
    .ok (.If (.BinOp (.Number 1) "<" (.Number 2))
          (some (.Number 3)) (some (.Number 4))) := rfl

example : parse_and_eval 100 "1 + 2 * 3" = .ok (.int 7) := rfl

example : parse_and_eval 100 "(1 + 2) + (3 + 4)" = .ok (.int 10) := rfl

example : parse_and_eval 100 "2 ^ 3 ^ 2" = .ok (.int 512) := rfl

example : parse_and_eval 100 "y + 2" = .error (.undefinedVariable "y") := rfl

example : parse_and_eval 100 "if 1 < 2 then 3 else 4" = .ok (.int 3) := rfl

example : parse_and_eval 100 "if 2 < 1 then 3 else 4" = .ok (.int 4) := rfl

example : parse_and_eval 100 "1 <= 2" = .error (.unknownOperator "<=") := rfl

example : parse_and_eval 100 "x = 4; x + 5" = .error (.unknownNode "Block") := rfl

example :
    evaluate 100 (.While (.BinOp (.Variable "i") "<" (.Number 3))
        (.Assignment "i" (.BinOp (.Variable "i") "+" (.Number 1)))) 0
        [⟨[("i", .int 0)]⟩] =
      .ok (.none, [⟨[("i", .int 3)]⟩]) := rfl

/-! ## Claims -/

/-- C1: parse of a multi-statement program does produce a `Block`, but
`evaluate` has no `Block` branch and raises the fatal unknown-AST-node
error, so parse-then-evaluate of `"x = 4; x + 5"` (and of
`"a = 2; b = a * 5; b"`) in a fresh environment fails instead of
returning 9 (resp. 10) as the claim states. -/
theorem claim_C1 :
    parse 100 "x = 4; x + 5" =
      .ok (.Block [.Assignment "x" (.Number 4),
        .BinOp (.Variable "x") "+" (.Number 5)]) ∧
    parse_and_eval 100 "x = 4; x + 5" = .error (.unknownNode "Block") ∧
    parse 100 "a = 2; b = a * 5; b" =
      .ok (.Block [.Assignment "a" (.Number 2),
        .Assignment "b" (.BinOp (.Variable "a") "*" (.Number 5)), .Variable "b"]) ∧
    parse_and_eval 100 "a = 2; b = a * 5; b" = .error (.unknownNode "Block") :=
  ⟨rfl, rfl, rfl, rfl⟩

/-- C2: the parser accepts `<=` and `>=` comparisons, but the `BinOp`
operator table of `evaluate` omits them, so such a `BinOp` always raises
the unknown-operator interpreter error instead of returning the
comparison's truth value; the other eleven listed operators are applied
as the claim states (`/` floor division, `%` floor modulo, `^`
exponentiation, eager non-short-circuit `and`/`or`). -/
theorem claim_C2 :
    parse 100 "1 <= 2" = .ok (.BinOp (.Number 1) "<=" (.Number 2)) ∧
    parse 100 "1 >= 2" = .ok (.BinOp (.Number 1) ">=" (.Number 2)) ∧
    parse_and_eval 100 "1 <= 2" = .error (.unknownOperator "<=") ∧
    parse_and_eval 100 "2 >= 1" = .error (.unknownOperator ">=") ∧
    (∀ left right : Value, applyBinOp "<=" left right = .error (.unknownOperator "<=")) ∧
    (∀ left right : Value, applyBinOp ">=" left right = .error (.unknownOperator ">=")) ∧
    (∀ a b : Int, applyBinOp "+" (.int a) (.int b) = .ok (.int (a + b))) ∧
    (∀ a b : Int, applyBinOp "-" (.int a) (.int b) = .ok (.int (a - b))) ∧
    (∀ a b : Int, applyBinOp "*" (.int a) (.int b) = .ok (.int (a * b))) ∧
    (∀ a b : Int, applyBinOp "==" (.int a) (.int b) = .ok (.bool (decide (a = b)))) ∧
    (∀ a b : Int, applyBinOp "<" (.int a) (.int b) = .ok (.bool (decide (a < b)))) ∧
    (∀ a b : Int, applyBinOp ">" (.int a) (.int b) = .ok (.bool (decide (a > b)))) ∧
    (∀ left right : Value,
      applyBinOp "and" left right = .ok (if truthy left then right else left)) ∧
    (∀ left right : Value,
      applyBinOp "or" left right = .ok (if truthy left then left else right)) ∧
    applyBinOp "/" (.int 7) (.int 2) = .ok (.int 3) ∧
    applyBinOp "/" (.int (-7)) (.int 2) = .ok (.int (-4)) ∧
    applyBinOp "%" (.int 7) (.int 3) = .ok (.int 1) ∧
    applyBinOp "%" (.int (-7)) (.int 3) = .ok (.int 2) ∧
    applyBinOp "^" (.int 2) (.int 9) = .ok (.int 512) :=
  ⟨rfl, rfl, rfl, rfl, fun _ _ => rfl, fun _ _ => rfl, fun _ _ => rfl, fun _ _ => rfl,
   fun _ _ => rfl, fun _ _ => rfl, fun _ _ => rfl, fun _ _ => rfl, fun _ _ => rfl,
   fun _ _ => rfl, rfl, rfl, rfl, rfl, rfl⟩

/-- C3: `evaluate` has no `Call` branch at all: every `Call` node — in
particular a call of a two-parameter function value with one or three
arguments — raises the fatal unknown-AST-node error, never an
arity-mismatch error. -/
theorem claim_C3 :
    (∀ (n : Nat) (name : String) (args : List Node) (e : Nat) (h : Heap),
      evaluate (n+1) (.Call name args) e h = .error (.unknownNode "Call")) ∧
    envGet [⟨[("f", .closure [(false, "x"), (false, "y")]
        [.ReturnValue (.BinOp (.Variable "x") "+" (.Variable "y"))] 0)]⟩] 0 "f" =
      .ok (.closure [(false, "x"), (false, "y")]
        [.ReturnValue (.BinOp (.Variable "x") "+" (.Variable "y"))] 0) ∧
    evaluate 100 (.Call "f" [.Number 1]) 0
        [⟨[("f", .closure [(false, "x"), (false, "y")]
          [.ReturnValue (.BinOp (.Variable "x") "+" (.Variable "y"))] 0)]⟩] =
      .error (.unknownNode "Call") ∧
    evaluate 100 (.Call "f" [.Number 1, .Number 2, .Number 3]) 0
        [⟨[("f", .closure [(false, "x"), (false, "y")]
          [.ReturnValue (.BinOp (.Variable "x") "+" (.Variable "y"))] 0)]⟩] =
      .error (.unknownNode "Call") :=
  ⟨fun _ _ _ _ _ => rfl, rfl, rfl, rfl⟩

/-- C4: evaluating `Assignment(name, rhs)` returns the no-value outcome,
but when `name` is bound to a `Reference` the code does *not* write
through it: it rebinds `name` in the assigning environment to the plain
value, and the referenced environment's slot keeps its old value
(`Reference.set`, which would perform the claimed write-through, is never
called). -/
theorem claim_C4 :
    (∀ n : Nat,
      evaluate (n+2) (.Assignment "x" (.Number 5)) 1
          [⟨[("y", .int 10)]⟩, ⟨[("x", .ref 0 "y")]⟩] =
        .ok (.none, [⟨[("y", .int 10)]⟩, ⟨[("x", .int 5)]⟩])) ∧
    envGet [⟨[("y", .int 10)]⟩, ⟨[("x", .ref 0 "y")]⟩] 1 "x" = .ok (.ref 0 "y") ∧
    referenceSet [⟨[("y", .int 10)]⟩, ⟨[("x", .ref 0 "y")]⟩] 0 "y" (.int 5) =
      [⟨[("y", .int 5)]⟩, ⟨[("x", .ref 0 "y")]⟩] :=
  ⟨fun _ => rfl, rfl, rfl⟩

/-- C5: `Env.get` on an unbound name fails with the undefined-variable
error naming that variable and on a bound name returns the bound value;
hence a `Variable` node evaluates accordingly, and parse-then-evaluate of
`"y + 2"` in a fresh environment fails with the undefined-variable error
for `y`. -/
theorem claim_C5 :
    (∀ (env : Env) (name : String), lookupVar env.vars name = Option.none →
      env.get name = .error (.undefinedVariable name)) ∧
    (∀ (env : Env) (name : String) (v : Value), lookupVar env.vars name = some v →
      env.get name = .ok v) ∧
    (∀ (n e : Nat) (h : Heap) (name : String),
      lookupVar (h.getD e ⟨[]⟩).vars name = Option.none →
      evaluate (n+1) (.Variable name) e h = .error (.undefinedVariable name)) ∧
    (∀ (n e : Nat) (h : Heap) (name : String) (v : Value),
      lookupVar (h.getD e ⟨[]⟩).vars name = some v →
      evaluate (n+1) (.Variable name) e h = .ok (v, h)) ∧
    parse_and_eval 100 "y + 2" = .error (.undefinedVariable "y") := by
  refine ⟨?_, ?_, ?_, ?_, rfl⟩
  · intro env name hnone
    simp [Env.get, hnone]
  · intro env name v hsome
    simp [Env.get, hsome]
  · intro n e h name hnone
    have hg : envGet h e name = .error (.undefinedVariable name) := by
      unfold envGet Env.get
      rw [hnone]
    simp [evaluate, hg]
  · intro n e h name v hsome
    have hg : envGet h e name = .ok v := by
      unfold envGet Env.get
      rw [hsome]
    simp [evaluate, hg]

/-- C5 witness: a concrete environment binding only `x`. -/
theorem claim_C5_witness :
    (Env.mk [("x", Value.int 1)]).get "y" = .error (.undefinedVariable "y") ∧
    (Env.mk [("x", Value.int 1)]).get "x" = .ok (.int 1) ∧
    evaluate 5 (.Variable "y") 0 [⟨[("x", .int 1)]⟩] = .error (.undefinedVariable "y") ∧
    evaluate 5 (.Variable "x") 0 [⟨[("x", .int 1)]⟩] = .ok (.int 1, [⟨[("x", .int 1)]⟩]) :=
  ⟨claim_C5.1 _ "y" rfl, claim_C5.2.1 _ "x" (.int 1) rfl,
   claim_C5.2.2.1 4 0 _ "y" rfl, claim_C5.2.2.2.1 4 0 _ "x" (.int 1) rfl⟩

/-- C6: the precedence grammar gives `*` priority over `+` and parses `^`
right-associatively, so the three spec programs evaluate to 7, 10 and 512
(`2 ^ 3 ^ 2` parses as `2 ^ (3 ^ 2)`). -/
theorem claim_C6 :
    parse 100 "1 + 2 * 3" =
      .ok (.BinOp (.Number 1) "+" (.BinOp (.Number 2) "*" (.Number 3))) ∧
    parse 100 "2 ^ 3 ^ 2" =
      .ok (.BinOp (.Number 2) "^" (.BinOp (.Number 3) "^" (.Number 2))) ∧
    parse_and_eval 100 "1 + 2 * 3" = .ok (.int 7) ∧
    parse_and_eval 100 "(1 + 2) + (3 + 4)" = .ok (.int 10) ∧
    parse_and_eval 100 "2 ^ 3 ^ 2" = .ok (.int 512) :=
  ⟨rfl, rfl, rfl, rfl, rfl⟩

/-- C7: a `While` node re-evaluates its condition before every iteration,
runs the body only while the condition is truthy, and — when the loop
terminates (`LoopRun` starting from the accumulated `None` result) —
returns the last body value, or the no-value outcome when the condition
is falsy on the first test. -/
theorem claim_C7 {c b : Node} {e : Nat} {h hfin : Heap} {res : Value}
    (hrun : LoopRun c b e h .none res hfin) :
    (∃ n, evaluate n (.While c b) e h = .ok (res, hfin)) ∧
    (∀ cv h1, (∃ n, evaluate n c e h = .ok (cv, h1)) → truthy cv = false →
      ∃ n, evaluate n (.While c b) e h = .ok (Value.none, h1)) := by
  constructor
  · obtain ⟨n, hw⟩ := loopRun_evalWhileLoop hrun
    exact ⟨n + 1, by rw [evaluate_While_eq]; exact hw⟩
  · intro cv h1 hc hfalse
    obtain ⟨n, hw⟩ := loopRun_evalWhileLoop (LoopRun.stop h cv h1 .none hc hfalse)
    exact ⟨n + 1, by rw [evaluate_While_eq]; exact hw⟩

/-- C7 witness: the loop `while i < 1 : i = i + 1` from `i = 0` runs its
body once (ending with `i = 1`) and returns the last body value, which
for an assignment body is the no-value outcome. -/
theorem claim_C7_witness :
    ∃ n, evaluate n
        (.While (.BinOp (.Variable "i") "<" (.Number 1))
          (.Assignment "i" (.BinOp (.Variable "i") "+" (.Number 1))))
        0 [⟨[("i", .int 0)]⟩] =
      .ok (.none, [⟨[("i", .int 1)]⟩]) := by
  have hrun : LoopRun (.BinOp (.Variable "i") "<" (.Number 1))
      (.Assignment "i" (.BinOp (.Variable "i") "+" (.Number 1))) 0
      [⟨[("i", .int 0)]⟩] .none .none [⟨[("i", .int 1)]⟩] := by
    refine LoopRun.step _ (.bool true) [⟨[("i", .int 0)]⟩] .none [⟨[("i", .int 1)]⟩] _ _ _
      ⟨5, rfl⟩ rfl ⟨5, rfl⟩ ?_
    exact LoopRun.stop _ (.bool false) _ _ ⟨5, rfl⟩ rfl
  exact (claim_C7 hrun).1

/-- C8: lexing fails exactly when the scan reaches a character no
token/whitespace/comment pattern of `SPEC` matches, and the raised error
names that character and its offset in the source; a source every
character of which is covered lexes successfully. -/
theorem claim_C8 (src : String) :
    ((∃ toks, lex src = .ok toks) ↔ Covers src.toList) ∧
    (∀ c i, lex src = .error (.lexError c i) →
      src.toList.get? i = some c ∧ firstMatch SPECR (src.toList.drop i) = none) := by
  obtain ⟨h1, h2⟩ := lexAux_char (src.toList.length + 1) src.toList 0 (by omega)
  refine ⟨h1, ?_⟩
  intro c i h
  obtain ⟨j, hj, hget, hnone⟩ := h2 c i h
  have : i = j := by omega
  subst this
  exact ⟨hget, hnone⟩

/-- C8 witness: `"x = 4; x + 5"` is fully covered; `"a $ b"` fails on the
`$` at byte offset 2, where no token pattern matches. -/
theorem claim_C8_witness :
    Covers ("x = 4; x + 5".toList) ∧
    lex "a $ b" = .error (.lexError '$' 2) ∧
    "a $ b".toList.get? 2 = some '$' ∧
    firstMatch SPECR ("a $ b".toList.drop 2) = none := by
  refine ⟨(claim_C8 "x = 4; x + 5").1.mp ⟨_, rfl⟩, rfl, ?_, ?_⟩
  · exact ((claim_C8 "a $ b").2 '$' 2 rfl).1
  · exact ((claim_C8 "a $ b").2 '$' 2 rfl).2

/-- C9: `evaluate` dispatches on exactly seven node kinds; `Block`,
`FunctionDef`, `Call` and `ReturnValue` nodes — all of which the parser
produces — always raise the fatal unknown-AST-node error, so no
function-definition, call, return or block semantics exist in the
evaluator. -/
theorem claim_C9 :
    (∀ (n e : Nat) (h : Heap) (statements : List Node),
      evaluate (n+1) (.Block statements) e h = .error (.unknownNode "Block")) ∧
    (∀ (n e : Nat) (h : Heap) (name : String) (params : List (Bool × String))
        (statements : List Node),
      evaluate (n+1) (.FunctionDef name params statements) e h =
        .error (.unknownNode "FunctionDef")) ∧
    (∀ (n e : Nat) (h : Heap) (name : String) (args : List Node),
      evaluate (n+1) (.Call name args) e h = .error (.unknownNode "Call")) ∧
    (∀ (n e : Nat) (h : Heap) (v : Node),
      evaluate (n+1) (.ReturnValue v) e h = .error (.unknownNode "ReturnValue")) ∧
    parse 100 "x = 1; y = 2" =
      .ok (.Block [.Assignment "x" (.Number 1), .Assignment "y" (.Number 2)]) ∧
    parse 100 "def f(x) : return x" =
      .ok (.FunctionDef "f" [(false, "x")] [.ReturnValue (.Variable "x")]) ∧
    parse 100 "f(1)" = .ok (.Call "f" [.Number 1]) ∧
    parse 100 "return 3" = .ok (.ReturnValue (.Number 3)) ∧
    evaluate 100 (.Number 3) 0 [⟨[]⟩] = .ok (.int 3, [⟨[]⟩]) ∧
    evaluate 100 (.Variable "x") 0 [⟨[("x", .int 1)]⟩] =
      .ok (.int 1, [⟨[("x", .int 1)]⟩]) ∧
    evaluate 100 (.BinOp (.Number 1) "+" (.Number 2)) 0 [⟨[]⟩] = .ok (.int 3, [⟨[]⟩]) ∧
    evaluate 100 (.While (.Number 0) (.Number 1)) 0 [⟨[]⟩] = .ok (.none, [⟨[]⟩]) ∧
    evaluate 100 (.If (.Number 1) (some (.Number 2)) Option.none) 0 [⟨[]⟩] =
      .ok (.int 2, [⟨[]⟩]) ∧
    evaluate 100 (.UnaryOp "not" (.Number 0)) 0 [⟨[]⟩] = .ok (.bool true, [⟨[]⟩]) ∧
    evaluate 100 (.Assignment "x" (.Number 1)) 0 [⟨[]⟩] =
      .ok (.none, [⟨[("x", .int 1)]⟩]) :=
  ⟨fun _ _ _ _ => rfl, fun _ _ _ _ _ _ => rfl, fun _ _ _ _ _ => rfl, fun _ _ _ _ => rfl,
   rfl, rfl, rfl, rfl, rfl, rfl, rfl, rfl, rfl, rfl, rfl⟩

/-- C10: a `while` condition is parsed by `parse_comparison` only, so
whenever the condition's parse stops at a top-level `==`, `and` or `or`
token, `parse_while` fails with the syntax error expecting the `:` token
there; arithmetic conditions and single comparisons parse successfully. -/
theorem claim_C10 :
    (∀ (n : Nat) (s s1 : PState) (condition : Node),
      peek_kind s = "WHILE" →
      parse_comparison n (advance s) = .ok (condition, s1) →
      (peek_kind s1 = "EQ" ∨ peek_kind s1 = "AND" ∨ peek_kind s1 = "OR") →
      parse_while (n+1) s = .error (.expectedKind "COLON" (current s1))) ∧
    parse 100 "while 1 == 1 : x = 1" = .error (.expectedKind "COLON" ⟨"EQ", "=="⟩) ∧
    parse 100 "while 1 < 2 and 2 < 3 : x = 1" =
      .error (.expectedKind "COLON" ⟨"AND", "and"⟩) ∧
    parse 100 "while 1 < 2 or 2 < 3 : x = 1" =
      .error (.expectedKind "COLON" ⟨"OR", "or"⟩) ∧
    parse 100 "while i < 3 : i = i + 1" =
      .ok (.While (.BinOp (.Variable "i") "<" (.Number 3))
        (.Assignment "i" (.BinOp (.Variable "i") "+" (.Number 1)))) ∧
    parse 100 "while i + 1 : i = 0" =
      .ok (.While (.BinOp (.Variable "i") "+" (.Number 1)) (.Assignment "i" (.Number 0))) := by
  refine ⟨?_, rfl, rfl, rfl, rfl, rfl⟩
  intro n s s1 condition hW hcmp hk
  have h1 : eat_kind "WHILE" s = .ok (current s, advance s) := by
    simp [eat_kind, hW]
  have hne : peek_kind s1 ≠ "COLON" := by
    rcases hk with h | h | h <;> simp [h]
  have h2 : eat_kind "COLON" s1 = .error (.expectedKind "COLON" (current s1)) := by
    simp [eat_kind, hne]
  simp [parse_while, hW, h1, hcmp, h2]

/-- C10 witness: the token stream of `while 1 == 1 : x = 1`, whose
condition parse stops at the `==` token. -/
theorem claim_C10_witness :
    parse_while 51
        ⟨[⟨"WHILE", "while"⟩, ⟨"NUM", "1"⟩, ⟨"EQ", "=="⟩, ⟨"NUM", "1"⟩, ⟨"COLON", ":"⟩,
          ⟨"ID", "x"⟩, ⟨"ASSIGN", "="⟩, ⟨"NUM", "1"⟩], 0⟩ =
      .error (.expectedKind "COLON" ⟨"EQ", "=="⟩) :=
  claim_C10.1 50
    ⟨[⟨"WHILE", "while"⟩, ⟨"NUM", "1"⟩, ⟨"EQ", "=="⟩, ⟨"NUM", "1"⟩, ⟨"COLON", ":"⟩,
      ⟨"ID", "x"⟩, ⟨"ASSIGN", "="⟩, ⟨"NUM", "1"⟩], 0⟩
    ⟨[⟨"WHILE", "while"⟩, ⟨"NUM", "1"⟩, ⟨"EQ", "=="⟩, ⟨"NUM", "1"⟩, ⟨"COLON", ":"⟩,
      ⟨"ID", "x"⟩, ⟨"ASSIGN", "="⟩, ⟨"NUM", "1"⟩], 2⟩
    (.Number 1) rfl rfl (Or.inl rfl)
